import Mathlib

/-!
Verification of the Scorched Earth simulation engine
(src/scorched-earth/src/App.tsx) against its specification.

The engine works on JavaScript numbers; we embed them as elements of an
arbitrary linear ordered field with a floor function, so that every
definition is executable on the rationals while the trigonometric parts
(trajectory and terrain interpolation) are stated over the reals.
-/

namespace ScorchedEarth

/-- A 2D point, mirroring the Point interface of the source. -/
structure Point (α : Type) where
  x : α
  y : α
  deriving DecidableEq

/-- A player station (emplacement), mirroring the Station interface:
position of the top-left corner plus width and height. -/
structure Station (α : Type) where
  x : α
  y : α
  width : α
  height : α
  deriving DecidableEq

/-- Classification of a terminal simulation tick in simulateMissile. -/
inductive FlightEvent where
  | outOfBounds
  | terrainHit
  | directHit
  deriving DecidableEq

/-- The two input steps of a turn, mirroring the InputStep type. -/
inductive InputStep where
  | angle
  | power
  deriving DecidableEq

/-- Match state assembled from the React state variables of App:
current player (0 = left, 1 = right), input step, terrain heightmap,
the two stations, the firing and gameOver flags, the winner (the player
named in the win message) and the per-player angle and power settings.
A setting is the result of parseFloat on the stored string: none stands
for NaN, some v for a numeric value. -/
structure MatchState (α : Type) where
  currentPlayer : ℕ
  inputStep : InputStep
  terrain : List α
  leftStation : Station α
  rightStation : Station α
  firing : Bool
  gameOver : Bool
  winner : Option ℕ
  playerSettings : List (Option α × Option α)
  deriving DecidableEq

section GenericDefs

variable {α : Type} [LinearOrderedField α] [FloorRing α]

/-- getTerrainHeight from App.tsx, lines 245 to 255: out-of-range x
(negative, or at or beyond length minus one) yields the canvas height 600;
otherwise linear interpolation between the two bracketing integer samples,
y0 plus (y1 minus y0) times the fractional part of x. -/
def getTerrainHeight (terrainArr : List α) (x : α) : α :=
  if x < 0 ∨ (terrainArr.length : α) - 1 ≤ x then 600
  else
    terrainArr.getD ⌊x⌋.toNat 0 +
      (terrainArr.getD (⌊x⌋.toNat + 1) 0 - terrainArr.getD ⌊x⌋.toNat 0) * (x - ⌊x⌋)

/-- The per-tick termination test of simulateMissile, lines 377 to 402,
in source order: first the out-of-bounds test (x below 0, x at or beyond
the canvas width, or y at or beyond the canvas height 600 - the top edge
may be exceeded), then the terrain test (y has reached or passed the
interpolated elevation), then the direct-hit test against the enemy
station rectangle with inclusive bounds.  Only the opposing station is
ever consulted: the firing station is not a parameter. -/
def tickEvent (w : α) (terrainArr : List α) (enemy : Station α) (p : Point α) :
    Option FlightEvent :=
  if p.x < 0 ∨ w ≤ p.x ∨ (600 : α) ≤ p.y then some FlightEvent.outOfBounds
  else if getTerrainHeight terrainArr p.x ≤ p.y then some FlightEvent.terrainHit
  else if enemy.x ≤ p.x ∧ p.x ≤ enemy.x + enemy.width ∧
      enemy.y ≤ p.y ∧ p.y ≤ enemy.y + enemy.height then some FlightEvent.directHit
  else none

/-- One pass of the crater loop of explosion, lines 440 to 446: starting
at integer index x and running for n iterations, each index within the
crater radius of the explosion x-coordinate is raised by the linear
falloff radius times (1 minus d over radius) and capped at the canvas
height 600.  A write at a negative index is inert, as it is in the
source where such an index is never part of the array proper. -/
def craterLoop (pos : Point α) (radius : α) : ℤ → ℕ → List α → List α
  | _, 0, arr => arr
  | x, n + 1, arr =>
      craterLoop pos radius (x + 1) (n + 1 - 1)
        (if |(x : α) - pos.x| < radius then
          if 0 ≤ x then
            arr.set x.toNat
              (min (arr.getD x.toNat 0 + radius * (1 - |(x : α) - pos.x| / radius)) 600)
          else arr
        else arr)

/-- The crater effect of explosion, lines 436 to 447: iterate over the
integer indices from max 0 (floor of x minus radius) up to and including
min (length minus 1) (ceil of x plus radius). -/
def crater (pos : Point α) (radius : α) (arr : List α) : List α :=
  craterLoop pos radius (max 0 ⌊pos.x - radius⌋)
    (min ((arr.length : ℤ) - 1) ⌈pos.x + radius⌉ + 1 - max 0 ⌊pos.x - radius⌋).toNat arr

/-- switchTurn, lines 471 to 480: flip the current player and return to
the angle input step. -/
def switchTurn (st : MatchState α) : MatchState α :=
  { st with
    currentPlayer := if st.currentPlayer = 0 then 1 else 0
    inputStep := InputStep.angle }

/-- The stored settings pair of the current player. -/
def currentSettings (st : MatchState α) : Option α × Option α :=
  st.playerSettings.getD st.currentPlayer (none, none)

/-- handleAngleSubmit, lines 585 to 593: parse the current player's angle
(none models NaN); on NaN or a value outside 0 to 90 report a validation
error (second component true) and leave the state untouched, otherwise
advance to the power input step. -/
def handleAngleSubmit (st : MatchState α) : MatchState α × Bool :=
  match (currentSettings st).1 with
  | none => (st, true)
  | some a =>
      if a < 0 ∨ 90 < a then (st, true)
      else ({ st with inputStep := InputStep.power }, false)

/-- handlePowerSubmit, lines 595 to 619, validation part: parse the
current player's power; on NaN or a value outside 0 to 500 report a
validation error and leave the state untouched, otherwise start the
flight (the firing flag is set; the trajectory itself is modelled by
simTickPos below). -/
def handlePowerSubmit (st : MatchState α) : MatchState α × Bool :=
  match (currentSettings st).2 with
  | none => (st, true)
  | some p =>
      if p < 0 ∨ 500 < p then (st, true)
      else ({ st with firing := true }, false)

/-- Geometric center of a station rectangle, as computed in explosion,
lines 449 to 452. -/
def stationCenter (s : Station α) : Point α :=
  ⟨s.x + s.width / 2, s.y + s.height / 2⟩

end GenericDefs

/-- GRAVITY constant, line 32: 100 pixels per second squared. -/
def GRAVITY : ℝ := 100

/-- DT constant, line 35: the simulation time step of 0.05 seconds. -/
def DT : ℝ := 0.05

/-- EXPLOSION_RADIUS constant, line 34, used both as the crater radius
and as the lethality distance threshold. -/
def EXPLOSION_RADIUS : ℝ := 20

/-- The simulation angle computed in handlePowerSubmit, lines 612 to 615:
the raw angle in radians for player 0, the mirrored angle 180 minus raw
for player 1. -/
noncomputable def simAngleRad (currentPlayer : ℕ) (rawAngle : ℝ) : ℝ :=
  if currentPlayer = 0 then rawAngle * Real.pi / 180
  else (180 - rawAngle) * Real.pi / 180

/-- The missile position of simulateMissile, lines 370 to 371, as the
closed-form function of the elapsed time t. -/
noncomputable def missileAt (startPos : Point ℝ) (simAngle v t : ℝ) : Point ℝ :=
  ⟨startPos.x + v * Real.cos simAngle * t,
   startPos.y - v * Real.sin simAngle * t + (1 / 2) * GRAVITY * (t * t)⟩

/-- The elapsed time accumulated by the animation loop, line 404: t
starts at 0 and each tick adds DT. -/
def tickTime : ℕ → ℝ
  | 0 => 0
  | n + 1 => tickTime n + DT

/-- The missile position at simulation tick n: the closed form evaluated
at the accumulated time, exactly as the animate callback computes it. -/
noncomputable def simTickPos (startPos : Point ℝ) (player : ℕ) (rawAngle v : ℝ)
    (n : ℕ) : Point ℝ :=
  missileAt startPos (simAngleRad player rawAngle) v (tickTime n)

/-- The state effect of explosion, lines 412 to 468: the crater is
applied to the terrain, then the explosion-to-enemy-center distance
decides the outcome: a direct hit or a distance at most EXPLOSION_RADIUS
ends the game with the current player as winner, otherwise the turn
switches.  The firing flag is cleared in both branches. -/
noncomputable def explosionStep (st : MatchState ℝ) (explosionPos : Point ℝ)
    (enemy : Station ℝ) (directHit : Bool) : MatchState ℝ :=
  let newTerrain := crater explosionPos EXPLOSION_RADIUS st.terrain
  let c := stationCenter enemy
  let dx := explosionPos.x - c.x
  let dy := explosionPos.y - c.y
  let distance := Real.sqrt (dx * dx + dy * dy)
  if directHit = true ∨ distance ≤ EXPLOSION_RADIUS then
    { st with
      terrain := newTerrain
      gameOver := true
      winner := some st.currentPlayer
      firing := false }
  else
    { switchTurn { st with terrain := newTerrain } with firing := false }

/-- The three terminal paths of simulateMissile, lines 377 to 402: an
out-of-bounds tick clears the firing flag and switches the turn without
touching the terrain; a terrain hit runs explosion without the direct
flag; a station hit runs explosion with the direct flag. -/
noncomputable def resolveFlightEnd (st : MatchState ℝ) (ev : FlightEvent)
    (pos : Point ℝ) (enemy : Station ℝ) : MatchState ℝ :=
  match ev with
  | FlightEvent.outOfBounds => switchTurn { st with firing := false }
  | FlightEvent.terrainHit => explosionStep st pos enemy false
  | FlightEvent.directHit => explosionStep st pos enemy true

/-- The x-coordinate of control point i in generateTerrain, lines 210 to
224: i times the segment length width over (numPoints minus 1), with the
final point forced to exactly width. -/
noncomputable def cpX (width n i : ℕ) : ℝ :=
  if i = n - 1 then (width : ℝ) else (i : ℝ) * ((width : ℝ) / ((n : ℝ) - 1))

/-- The control points of generateTerrain for a given outcome ys of the
random elevation draws (one entry per point, numPoints = ys.length). -/
noncomputable def mkControlPoints (width : ℕ) (ys : List ℝ) : List (Point ℝ) :=
  (List.range ys.length).map (fun i => ⟨cpX width ys.length i, ys.getD i 0⟩)

/-- The cosine-blended elevation computed in the inner loop of
generateTerrain, lines 232 to 234, at integer x between control points
p0 and p1. -/
noncomputable def interpAt (p0 p1 : Point ℝ) (x : ℤ) : ℝ :=
  let t := ((x : ℝ) - p0.x) / (p1.x - p0.x)
  let t2 := (1 - Real.cos (t * Real.pi)) / 2
  p0.y * (1 - t2) + p1.y * t2

/-- The inner fill loop of generateTerrain: starting at integer index x,
n iterations write the blended elevation of the segment from p0 to p1.
A write at a negative index is inert, matching a JavaScript property
write outside the array range. -/
noncomputable def fillFrom (p0 p1 : Point ℝ) : ℤ → ℕ → List (Option ℝ) → List (Option ℝ)
  | _, 0, arr => arr
  | x, n + 1, arr =>
      fillFrom p0 p1 (x + 1) (n + 1 - 1)
        (if 0 ≤ x then arr.set x.toNat (some (interpAt p0 p1 x)) else arr)

/-- One segment of the fill, lines 226 to 236: x runs from the floor of
p0.x while it is below both the floor of p1.x and the width. -/
noncomputable def fillSegment (width : ℕ) (p0 p1 : Point ℝ) (arr : List (Option ℝ)) :
    List (Option ℝ) :=
  fillFrom p0 p1 ⌊p0.x⌋ (min ⌊p1.x⌋ (width : ℤ) - ⌊p0.x⌋).toNat arr

/-- The outer loop of generateTerrain over consecutive control-point
pairs. -/
noncomputable def fillAll (width : ℕ) : List (Point ℝ) → List (Option ℝ) → List (Option ℝ)
  | p0 :: p1 :: rest, arr => fillAll width (p1 :: rest) (fillSegment width p0 p1 arr)
  | _, arr => arr

/-- The back-fill loop of generateTerrain, lines 237 to 241: every index
still undefined receives the current value at index width minus 1. -/
noncomputable def backfillFrom (width : ℕ) : ℕ → ℕ → List (Option ℝ) → List (Option ℝ)
  | _, 0, arr => arr
  | x, n + 1, arr =>
      backfillFrom width (x + 1) (n + 1 - 1)
        (if arr.getD x none = none then arr.set x (arr.getD (width - 1) none) else arr)

/-- generateTerrain, lines 206 to 243, for a given outcome ys of the
random elevation draws: an array of width undefined entries, filled
segment by segment, then back-filled. -/
noncomputable def generateTerrain (width : ℕ) (ys : List ℝ) : List (Option ℝ) :=
  backfillFrom width 0 width
    (fillAll width (mkControlPoints width ys) (List.replicate width none))

/-- A concrete match state used to instantiate theorems: player 0 to
move, a one-column heightmap at elevation 300, default stations. -/
noncomputable def sampleState : MatchState ℝ :=
  ⟨0, InputStep.angle, [300], ⟨0, 0, 30, 15⟩, ⟨100, 0, 30, 15⟩, false, false, none, []⟩

/-! ## Theorems -/

section TickTheorems

variable {α : Type} [LinearOrderedField α] [FloorRing α]

/-- Claim C2: at every simulation tick the impact checks run in source
order with the first match terminal: out-of-bounds exactly when x is
below 0, at or beyond the width, or y at or beyond the canvas height
(exceeding the top edge alone never terminates); otherwise a terrain hit
as soon as y has reached or passed the interpolated heightmap elevation;
otherwise a direct hit exactly when the position lies in the opposing
station rectangle with inclusive bounds; otherwise the flight goes on.
The firing station plays no part in the test. -/
theorem tick_check_order (w : α) (terrainArr : List α) (enemy : Station α)
    (p : Point α) :
    ((p.x < 0 ∨ w ≤ p.x ∨ (600 : α) ≤ p.y) →
      tickEvent w terrainArr enemy p = some FlightEvent.outOfBounds)
    ∧ (0 ≤ p.x → p.x < w → p.y < 0 →
      tickEvent w terrainArr enemy p ≠ some FlightEvent.outOfBounds)
    ∧ (¬(p.x < 0 ∨ w ≤ p.x ∨ (600 : α) ≤ p.y) →
      getTerrainHeight terrainArr p.x ≤ p.y →
      tickEvent w terrainArr enemy p = some FlightEvent.terrainHit)
    ∧ (¬(p.x < 0 ∨ w ≤ p.x ∨ (600 : α) ≤ p.y) →
      p.y < getTerrainHeight terrainArr p.x →
      (enemy.x ≤ p.x ∧ p.x ≤ enemy.x + enemy.width ∧
        enemy.y ≤ p.y ∧ p.y ≤ enemy.y + enemy.height) →
      tickEvent w terrainArr enemy p = some FlightEvent.directHit)
    ∧ (¬(p.x < 0 ∨ w ≤ p.x ∨ (600 : α) ≤ p.y) →
      p.y < getTerrainHeight terrainArr p.x →
      ¬(enemy.x ≤ p.x ∧ p.x ≤ enemy.x + enemy.width ∧
        enemy.y ≤ p.y ∧ p.y ≤ enemy.y + enemy.height) →
      tickEvent w terrainArr enemy p = none) := by
  refine ⟨?_, ?_, ?_, ?_, ?_⟩
  · intro h
    rw [tickEvent, if_pos h]
  · intro h1 h2 h3
    have hnb : ¬(p.x < 0 ∨ w ≤ p.x ∨ (600 : α) ≤ p.y) := by
      push_neg
      exact ⟨h1, h2, by linarith⟩
    rw [tickEvent, if_neg hnb]
    split_ifs <;> simp
  · intro hnb hth
    rw [tickEvent, if_neg hnb, if_pos hth]
  · intro hnb hy hin
    rw [tickEvent, if_neg hnb, if_neg (not_le.mpr hy), if_pos hin]
  · intro hnb hy hin
    rw [tickEvent, if_neg hnb, if_neg (not_le.mpr hy), if_neg hin]

/-- Witness for claim C2: a tick at x = -1 is classified out of bounds. -/
theorem tick_check_order_witness :
    tickEvent (100 : ℚ) [] ⟨0, 0, 1, 1⟩ ⟨-1, 0⟩ = some FlightEvent.outOfBounds :=
  (tick_check_order (100 : ℚ) [] ⟨0, 0, 1, 1⟩ ⟨-1, 0⟩).1 (by norm_num)

/-- Counterexample to claim C9: the position (0, 50) lies inside the
enemy station rectangle and has reached the terrain elevation 50, yet
the tick is classified as a terrain hit, not a direct hit - the terrain
test runs first in the source. -/
theorem overlap_not_direct_hit :
    ((⟨0, 40, 30, 15⟩ : Station ℚ).x ≤ (0 : ℚ) ∧
      (0 : ℚ) ≤ (⟨0, 40, 30, 15⟩ : Station ℚ).x + (⟨0, 40, 30, 15⟩ : Station ℚ).width ∧
      (⟨0, 40, 30, 15⟩ : Station ℚ).y ≤ (50 : ℚ) ∧
      (50 : ℚ) ≤ (⟨0, 40, 30, 15⟩ : Station ℚ).y + (⟨0, 40, 30, 15⟩ : Station ℚ).height)
    ∧ getTerrainHeight [(50 : ℚ), 50] 0 ≤ 50
    ∧ tickEvent (100 : ℚ) [50, 50] ⟨0, 40, 30, 15⟩ ⟨0, 50⟩ = some FlightEvent.terrainHit
    ∧ tickEvent (100 : ℚ) [50, 50] ⟨0, 40, 30, 15⟩ ⟨0, 50⟩ ≠ some FlightEvent.directHit := by
  refine ⟨by norm_num, by norm_num [getTerrainHeight], ?_, ?_⟩
  · norm_num [tickEvent, getTerrainHeight]
  · norm_num [tickEvent, getTerrainHeight]
    intro h
    exact FlightEvent.noConfusion h

/-- Claim C9 amended: when a tick position simultaneously lies inside
the opposing station rectangle and has reached or passed the terrain
elevation, the outcome is a terrain hit - the terrain test takes
precedence over the direct-hit test at the same tick. -/
theorem overlap_is_terrain_hit (w : α) (terrainArr : List α) (enemy : Station α)
    (p : Point α)
    (hb : ¬(p.x < 0 ∨ w ≤ p.x ∨ (600 : α) ≤ p.y))
    (hth : getTerrainHeight terrainArr p.x ≤ p.y)
    (hin : enemy.x ≤ p.x ∧ p.x ≤ enemy.x + enemy.width ∧
      enemy.y ≤ p.y ∧ p.y ≤ enemy.y + enemy.height) :
    tickEvent w terrainArr enemy p = some FlightEvent.terrainHit := by
  rw [tickEvent, if_neg hb, if_pos hth]

/-- Witness for the amended claim C9 at the counterexample input. -/
theorem overlap_is_terrain_hit_witness :
    tickEvent (100 : ℚ) [50, 50] ⟨0, 40, 30, 15⟩ ⟨0, 50⟩ = some FlightEvent.terrainHit :=
  overlap_is_terrain_hit (100 : ℚ) [50, 50] ⟨0, 40, 30, 15⟩ ⟨0, 50⟩
    (by norm_num) (by norm_num [getTerrainHeight]) (by norm_num)

/-- Counterexample to claim C10: for the heightmap [100, 200] of width 2
the lookup at the integer coordinate 1 returns the out-of-range fallback
600, not the stored sample 200, because the source treats every x at or
beyond length minus 1 as out of range. -/
theorem terrain_lookup_last_index :
    getTerrainHeight [(100 : ℚ), 200] 1 = 600
    ∧ List.getD [(100 : ℚ), 200] 1 0 = 200
    ∧ (600 : ℚ) ≠ 200 := by
  refine ⟨by norm_num [getTerrainHeight], by norm_num [List.getD], by norm_num⟩

/-- Claim C10 amended: for every heightmap and every integer coordinate
x with x + 1 below the length (that is, 0 <= x < width - 1), the terrain
elevation lookup returns exactly the stored sample; at the final index
width - 1 the lookup instead returns the canvas height 600. -/
theorem terrain_lookup_integer (terrainArr : List α) (x : ℕ)
    (hx : x + 1 < terrainArr.length) :
    getTerrainHeight terrainArr (x : α) = terrainArr.getD x 0 := by
  have hlt : (x : α) < (terrainArr.length : α) - 1 := by
    have h1 : ((x : α) + 1) < (terrainArr.length : α) := by
      exact_mod_cast Nat.cast_lt.mpr hx
    linarith
  have hnb : ¬((x : α) < 0 ∨ (terrainArr.length : α) - 1 ≤ (x : α)) := by
    push_neg
    exact ⟨Nat.cast_nonneg x, hlt⟩
  rw [getTerrainHeight, if_neg hnb]
  rw [Int.floor_natCast]
  push_cast
  ring_nf
  simp

/-- Witness for the amended claim C10: lookup at index 1 of a heightmap
of length 3 returns the stored sample. -/
theorem terrain_lookup_integer_witness :
    getTerrainHeight [(100 : ℚ), 200, 300] ((1 : ℕ) : ℚ) = List.getD [(100 : ℚ), 200, 300] 1 0 :=
  terrain_lookup_integer [(100 : ℚ), 200, 300] 1 (by decide)

/-- Claim C8: an angle submission whose parsed value is NaN (modelled as
none) or outside 0 to 90, and a power submission whose parsed value is
NaN or outside 0 to 500, signal a validation error and return the match
state completely unchanged - every field, including the current player,
input step, terrain, stations, game-over flag, stored settings and the
firing flag (so no flight is started). -/
theorem invalid_input_unchanged (st : MatchState α) :
    ((currentSettings st).1 = none → handleAngleSubmit st = (st, true))
    ∧ (∀ a, (currentSettings st).1 = some a → (a < 0 ∨ 90 < a) →
        handleAngleSubmit st = (st, true))
    ∧ ((currentSettings st).2 = none → handlePowerSubmit st = (st, true))
    ∧ (∀ q, (currentSettings st).2 = some q → (q < 0 ∨ 500 < q) →
        handlePowerSubmit st = (st, true)) := by
  refine ⟨?_, ?_, ?_, ?_⟩
  · intro h
    rw [handleAngleSubmit, h]
  · intro a ha hrange
    rw [handleAngleSubmit, ha]
    simp only [if_pos hrange]
  · intro h
    rw [handlePowerSubmit, h]
  · intro q hq hrange
    rw [handlePowerSubmit, hq]
    simp only [if_pos hrange]

/-- Witness for claim C8: with stored angle -1 for the current player
the angle submission reports an error and returns the state unchanged. -/
theorem invalid_input_unchanged_witness :
    handleAngleSubmit
      (⟨0, InputStep.angle, [], ⟨0, 0, 30, 15⟩, ⟨60, 0, 30, 15⟩, false, false, none,
        [(some (-1), some 250), (some 45, some 250)]⟩ : MatchState ℚ) =
      (⟨0, InputStep.angle, [], ⟨0, 0, 30, 15⟩, ⟨60, 0, 30, 15⟩, false, false, none,
        [(some (-1), some 250), (some 45, some 250)]⟩, true) :=
  (invalid_input_unchanged _).2.1 (-1) (by rfl) (by norm_num)

end TickTheorems

/-! ### List helper lemmas -/

theorem getD_set_self {β : Type} (l : List β) (i : ℕ) (a d : β) :
    (l.set i a).getD i d = if i < l.length then a else d := by
  simp only [List.getD_eq_getElem?_getD, List.getElem?_set]
  split_ifs <;> simp_all

theorem getD_set_ne {β : Type} (l : List β) (i j : ℕ) (a d : β) (h : i ≠ j) :
    (l.set i a).getD j d = l.getD j d := by
  simp [List.getD_eq_getElem?_getD, List.getElem?_set, h]

theorem getD_of_length_le {β : Type} (l : List β) (j : ℕ) (d : β) (h : l.length ≤ j) :
    l.getD j d = d := by
  simp [List.getD_eq_getElem?_getD, List.getElem?_eq_none h]

/-! ### Crater theorems -/

section CraterTheorems

variable {α : Type} [LinearOrderedField α] [FloorRing α]

theorem craterLoop_length (pos : Point α) (radius : α) (n : ℕ) :
    ∀ (x : ℤ) (arr : List α), (craterLoop pos radius x n arr).length = arr.length := by
  induction n with
  | zero => intro x arr; simp [craterLoop]
  | succ n ih =>
      intro x arr
      simp only [craterLoop, Nat.add_sub_cancel]
      rw [ih]
      split_ifs <;> simp

theorem craterLoop_getD (pos : Point α) (radius : α) (n : ℕ) :
    ∀ (x : ℤ) (arr : List α) (j : ℕ),
      (craterLoop pos radius x n arr).getD j 0 =
        if x ≤ (j : ℤ) ∧ (j : ℤ) < x + n ∧ |(j : α) - pos.x| < radius ∧ j < arr.length
        then min (arr.getD j 0 + radius * (1 - |(j : α) - pos.x| / radius)) 600
        else arr.getD j 0 := by
  induction n with
  | zero =>
      intro x arr j
      have hc : ¬(x ≤ (j : ℤ) ∧ (j : ℤ) < x + (0 : ℕ) ∧
          |(j : α) - pos.x| < radius ∧ j < arr.length) := by
        rintro ⟨h1, h2, -, -⟩
        omega
      rw [if_neg hc]
      simp [craterLoop]
  | succ n ih =>
      intro x arr j
      simp only [craterLoop, Nat.add_sub_cancel]
      rw [ih]
      have hcast : ((n + 1 : ℕ) : ℤ) = (n : ℤ) + 1 := by push_cast; ring
      rw [hcast]
      by_cases hj : (j : ℤ) = x
      · have hx0 : 0 ≤ x := hj ▸ Int.natCast_nonneg j
        have hxt : x.toNat = j := by omega
        have hxa : ((x : ℤ) : α) = ((j : ℕ) : α) := by
          rw [← hj]; push_cast; ring
        rw [hxa, hxt]
        by_cases hd : |(j : α) - pos.x| < radius
        · rw [if_pos hd, if_pos hx0]
          have hnot : ¬(x + 1 ≤ (j : ℤ) ∧ (j : ℤ) < x + 1 + (n : ℤ) ∧
              |(j : α) - pos.x| < radius ∧
              j < (arr.set j (min (arr.getD j 0 + radius * (1 - |(j : α) - pos.x| / radius)) 600)).length) := by
            rintro ⟨h1, -, -, -⟩
            omega
          rw [if_neg hnot, getD_set_self]
          by_cases hlen : j < arr.length
          · rw [if_pos hlen,
              if_pos (show x ≤ (j : ℤ) ∧ (j : ℤ) < x + ((n : ℤ) + 1) ∧
                  |(j : α) - pos.x| < radius ∧ j < arr.length from
                ⟨by omega, by omega, hd, hlen⟩)]
          · rw [if_neg hlen,
              if_neg (show ¬(x ≤ (j : ℤ) ∧ (j : ℤ) < x + ((n : ℤ) + 1) ∧
                  |(j : α) - pos.x| < radius ∧ j < arr.length) from
                by rintro ⟨-, -, -, h4⟩; exact hlen h4),
              getD_of_length_le arr j 0 (by omega)]
        · rw [if_neg hd]
          rw [if_neg (show ¬(x + 1 ≤ (j : ℤ) ∧ (j : ℤ) < x + 1 + (n : ℤ) ∧
                |(j : α) - pos.x| < radius ∧ j < arr.length) from
              by rintro ⟨-, -, h3, -⟩; exact hd h3),
            if_neg (show ¬(x ≤ (j : ℤ) ∧ (j : ℤ) < x + ((n : ℤ) + 1) ∧
                |(j : α) - pos.x| < radius ∧ j < arr.length) from
              by rintro ⟨-, -, h3, -⟩; exact hd h3)]
      · have key : ∀ arr' : List α, arr'.getD j 0 = arr.getD j 0 → arr'.length = arr.length →
            (if x + 1 ≤ (j : ℤ) ∧ (j : ℤ) < x + 1 + (n : ℤ) ∧
                |(j : α) - pos.x| < radius ∧ j < arr'.length
              then min (arr'.getD j 0 + radius * (1 - |(j : α) - pos.x| / radius)) 600
              else arr'.getD j 0) =
            (if x ≤ (j : ℤ) ∧ (j : ℤ) < x + ((n : ℤ) + 1) ∧
                |(j : α) - pos.x| < radius ∧ j < arr.length
              then min (arr.getD j 0 + radius * (1 - |(j : α) - pos.x| / radius)) 600
              else arr.getD j 0) := by
          intro arr' hget hlen
          rw [hget, hlen]
          apply if_congr _ rfl rfl
          constructor
          · rintro ⟨h1, h2, h3, h4⟩; exact ⟨by omega, by omega, h3, h4⟩
          · rintro ⟨h1, h2, h3, h4⟩; exact ⟨by omega, by omega, h3, h4⟩
        by_cases hd : |(x : α) - pos.x| < radius
        · by_cases hx0 : 0 ≤ x
          · rw [if_pos hd, if_pos hx0]
            exact key _ (getD_set_ne arr x.toNat j _ 0 (by omega)) (by simp)
          · rw [if_pos hd, if_neg hx0]
            exact key arr rfl rfl
        · rw [if_neg hd]
          exact key arr rfl rfl

theorem crater_getD_inside (arr : List α) (pos : Point α) (radius : α) (x : ℕ)
    (hx : x < arr.length) (h : |(x : α) - pos.x| < radius) :
    (crater pos radius arr).getD x 0 =
      min (arr.getD x 0 + radius * (1 - |(x : α) - pos.x| / radius)) 600 := by
  have h1 : -radius < (x : α) - pos.x := (abs_lt.mp h).1
  have h2 : (x : α) - pos.x < radius := (abs_lt.mp h).2
  have hfl : ⌊pos.x - radius⌋ ≤ (x : ℤ) := by
    have : pos.x - radius ≤ ((x : ℤ) : α) := by push_cast; linarith
    calc ⌊pos.x - radius⌋ ≤ ⌊((x : ℤ) : α)⌋ := Int.floor_le_floor this
      _ = (x : ℤ) := Int.floor_intCast _
  have hcl : (x : ℤ) ≤ ⌈pos.x + radius⌉ := by
    have : ((x : ℤ) : α) ≤ pos.x + radius := by push_cast; linarith
    calc (x : ℤ) = ⌈((x : ℤ) : α)⌉ := (Int.ceil_intCast _).symm
      _ ≤ ⌈pos.x + radius⌉ := Int.ceil_le_ceil this
  rw [crater, craterLoop_getD]
  rw [if_pos ⟨by omega, by omega, h, hx⟩]

/-- Claim C3: after cratering, every heightmap index x with distance
d = |x - center.x| below the radius holds min (old + radius * (1 - d / radius)) 600;
the increase before capping is exactly the radius at distance 0; the
elevation never drops (numerically) below its old value when the old
value is at most the canvas bottom 600; and every index at distance at
least the radius is untouched. -/
theorem crater_pointwise (arr : List α) (pos : Point α) (radius : α) (x : ℕ)
    (hx : x < arr.length) :
    (|(x : α) - pos.x| < radius →
      (crater pos radius arr).getD x 0 =
        min (arr.getD x 0 + radius * (1 - |(x : α) - pos.x| / radius)) 600)
    ∧ (pos.x = (x : α) → radius * (1 - |(x : α) - pos.x| / radius) = radius)
    ∧ (radius ≤ |(x : α) - pos.x| → (crater pos radius arr).getD x 0 = arr.getD x 0)
    ∧ (arr.getD x 0 ≤ 600 → arr.getD x 0 ≤ (crater pos radius arr).getD x 0) := by
  have habs := crater_getD_inside arr pos radius x hx
  refine ⟨habs, ?_, ?_, ?_⟩
  · intro hc
    rw [hc]
    simp
  · intro h
    rw [crater, craterLoop_getD]
    rw [if_neg (by rintro ⟨-, -, h3, -⟩; exact absurd h3 (not_lt.mpr h))]
  · intro hle
    by_cases h : |(x : α) - pos.x| < radius
    · rw [habs h]
      have hd0 : 0 ≤ |(x : α) - pos.x| := abs_nonneg _
      have hr0 : 0 < radius := lt_of_le_of_lt hd0 h
      have hdiv : |(x : α) - pos.x| / radius < 1 := (div_lt_one hr0).mpr h
      have hdelta : 0 ≤ radius * (1 - |(x : α) - pos.x| / radius) := by
        apply mul_nonneg (le_of_lt hr0)
        linarith
      exact le_min (by linarith) hle
    · rw [crater, craterLoop_getD,
        if_neg (by rintro ⟨-, -, h3, -⟩; exact h h3)]

end CraterTheorems

/-- Witness for claim C3: a crater of radius 20 centered at x-coordinate
0 raises the heightmap entry at index 0 by the full radius, capped at
600. -/
theorem crater_pointwise_witness :
    (crater (⟨0, 0⟩ : Point ℚ) 20 [300, 300]).getD 0 0 =
      min ((300 : ℚ) + 20 * (1 - |((0 : ℕ) : ℚ) - 0| / 20)) 600 :=
  (crater_pointwise [300, 300] ⟨0, 0⟩ 20 0 (by norm_num)).1 (by norm_num)

/-! ### Terrain generation helper lemmas -/

theorem getD_set_refl {β : Type} (l : List β) (x k : ℕ) (d : β) :
    (l.set x (l.getD k d)).getD k d = l.getD k d := by
  by_cases h : x = k
  · subst h
    rw [getD_set_self]
    split_ifs with h2
    · rfl
    · rw [getD_of_length_le l x d (by omega)]
  · rw [getD_set_ne l x k _ d h]

theorem fillFrom_length (p0 p1 : Point ℝ) (n : ℕ) :
    ∀ (x : ℤ) (arr : List (Option ℝ)), (fillFrom p0 p1 x n arr).length = arr.length := by
  induction n with
  | zero => intro x arr; simp [fillFrom]
  | succ n ih =>
      intro x arr
      simp only [fillFrom, Nat.add_sub_cancel]
      rw [ih]
      split_ifs <;> simp

theorem fillFrom_getD (p0 p1 : Point ℝ) (n : ℕ) :
    ∀ (x : ℤ) (arr : List (Option ℝ)) (j : ℕ),
      (fillFrom p0 p1 x n arr).getD j none =
        if x ≤ (j : ℤ) ∧ (j : ℤ) < x + n ∧ j < arr.length
        then some (interpAt p0 p1 (j : ℤ))
        else arr.getD j none := by
  induction n with
  | zero =>
      intro x arr j
      rw [if_neg (by rintro ⟨h1, h2, -⟩; omega)]
      simp [fillFrom]
  | succ n ih =>
      intro x arr j
      simp only [fillFrom, Nat.add_sub_cancel]
      rw [ih]
      have hcast : ((n + 1 : ℕ) : ℤ) = (n : ℤ) + 1 := by push_cast; ring
      rw [hcast]
      by_cases hj : (j : ℤ) = x
      · have hx0 : 0 ≤ x := hj ▸ Int.natCast_nonneg j
        have hxt : x.toNat = j := by omega
        rw [if_pos hx0, hxt, show x = (j : ℤ) from hj.symm]
        rw [if_neg (by rintro ⟨h1, -, -⟩; omega), getD_set_self]
        by_cases hlen : j < arr.length
        · rw [if_pos hlen,
            if_pos (show (j : ℤ) ≤ (j : ℤ) ∧ (j : ℤ) < (j : ℤ) + ((n : ℤ) + 1) ∧ j < arr.length
              from ⟨le_refl _, by omega, hlen⟩)]
        · rw [if_neg hlen,
            if_neg (show ¬((j : ℤ) ≤ (j : ℤ) ∧ (j : ℤ) < (j : ℤ) + ((n : ℤ) + 1) ∧ j < arr.length)
              from by rintro ⟨-, -, h3⟩; exact hlen h3),
            getD_of_length_le arr j none (by omega)]
      · have key : ∀ arr' : List (Option ℝ), arr'.getD j none = arr.getD j none →
            arr'.length = arr.length →
            (if x + 1 ≤ (j : ℤ) ∧ (j : ℤ) < x + 1 + (n : ℤ) ∧ j < arr'.length
              then some (interpAt p0 p1 (j : ℤ)) else arr'.getD j none) =
            (if x ≤ (j : ℤ) ∧ (j : ℤ) < x + ((n : ℤ) + 1) ∧ j < arr.length
              then some (interpAt p0 p1 (j : ℤ)) else arr.getD j none) := by
          intro arr' hget hlen
          rw [hget, hlen]
          apply if_congr _ rfl rfl
          constructor
          · rintro ⟨h1, h2, h3⟩; exact ⟨by omega, by omega, h3⟩
          · rintro ⟨h1, h2, h3⟩; exact ⟨by omega, by omega, h3⟩
        by_cases hx0 : 0 ≤ x
        · rw [if_pos hx0]
          exact key _ (getD_set_ne arr x.toNat j _ none (by omega)) (by simp)
        · rw [if_neg hx0]
          exact key arr rfl rfl

theorem fillSegment_length (width : ℕ) (p0 p1 : Point ℝ) (arr : List (Option ℝ)) :
    (fillSegment width p0 p1 arr).length = arr.length := by
  rw [fillSegment, fillFrom_length]

theorem fillSegment_getD (width : ℕ) (p0 p1 : Point ℝ) (arr : List (Option ℝ)) (j : ℕ) :
    (fillSegment width p0 p1 arr).getD j none =
      if ⌊p0.x⌋ ≤ (j : ℤ) ∧ (j : ℤ) < min ⌊p1.x⌋ (width : ℤ) ∧ j < arr.length
      then some (interpAt p0 p1 (j : ℤ))
      else arr.getD j none := by
  rw [fillSegment, fillFrom_getD]
  apply if_congr _ rfl rfl
  constructor
  · rintro ⟨h1, h2, h3⟩; exact ⟨h1, by omega, h3⟩
  · rintro ⟨h1, h2, h3⟩; exact ⟨h1, by omega, h3⟩

theorem fillAll_length (width : ℕ) :
    ∀ (cps : List (Point ℝ)) (arr : List (Option ℝ)),
      (fillAll width cps arr).length = arr.length := by
  intro cps
  induction cps with
  | nil => intro arr; rfl
  | cons q0 rest ih =>
      intro arr
      cases rest with
      | nil => rfl
      | cons q1 rest' =>
          simp only [fillAll]
          rw [ih, fillSegment_length]

theorem fillAll_getD_of_forall_gt (width : ℕ) (j : ℕ) :
    ∀ (cps : List (Point ℝ)) (arr : List (Option ℝ)),
      (∀ q ∈ cps, (j : ℤ) < ⌊q.x⌋) →
      (fillAll width cps arr).getD j none = arr.getD j none := by
  intro cps
  induction cps with
  | nil => intro arr _; rfl
  | cons q0 rest ih =>
      intro arr hall
      cases rest with
      | nil => rfl
      | cons q1 rest' =>
          simp only [fillAll]
          rw [ih _ (fun q hq => hall q (List.mem_cons_of_mem _ hq)), fillSegment_getD]
          rw [if_neg ?hneg]
          case hneg =>
            rintro ⟨hh, -, -⟩
            have := hall q0 (List.mem_cons_self _ _)
            omega

theorem fillAll_getD_pair (width : ℕ) (j : ℕ) :
    ∀ (cps : List (Point ℝ)) (arr : List (Option ℝ)) (i : ℕ) (p0 p1 : Point ℝ),
      cps[i]? = some p0 → cps[i + 1]? = some p1 →
      (∀ k q, i + 1 ≤ k → cps[k]? = some q → ⌊p1.x⌋ ≤ ⌊q.x⌋) →
      ⌊p0.x⌋ ≤ (j : ℤ) → (j : ℤ) < min ⌊p1.x⌋ (width : ℤ) → j < arr.length →
      (fillAll width cps arr).getD j none = some (interpAt p0 p1 (j : ℤ)) := by
  intro cps
  induction cps with
  | nil => intro arr i p0 p1 h0; simp at h0
  | cons q0 rest ih =>
      intro arr i p0 p1 h0 h1 hmono hlo hhi hlen
      cases rest with
      | nil =>
          rcases i with _ | i <;> simp at h1
      | cons q1 rest' =>
          rcases i with _ | i
          · have hq0 : q0 = p0 := by simpa using h0
            have hq1 : q1 = p1 := by simpa using h1
            subst hq0
            subst hq1
            have hforall : ∀ q ∈ q1 :: rest', (j : ℤ) < ⌊q.x⌋ := by
              intro q hq
              rcases List.mem_iff_getElem?.mp hq with ⟨k, hk⟩
              have hk' : (q0 :: q1 :: rest')[k + 1]? = some q := by simpa using hk
              have := hmono (k + 1) q (by omega) hk'
              omega
            simp only [fillAll]
            rw [fillAll_getD_of_forall_gt width j (q1 :: rest') _ hforall,
              fillSegment_getD, if_pos ⟨hlo, hhi, hlen⟩]
          · simp only [fillAll]
            apply ih _ i p0 p1 (by simpa using h0) (by simpa using h1)
              (fun k q hk hq => hmono (k + 1) q (by omega) (by simpa using hq)) hlo hhi
            rw [fillSegment_length]
            exact hlen

theorem backfillFrom_length (width : ℕ) (n : ℕ) :
    ∀ (x : ℕ) (arr : List (Option ℝ)), (backfillFrom width x n arr).length = arr.length := by
  induction n with
  | zero => intro x arr; rfl
  | succ n ih =>
      intro x arr
      simp only [backfillFrom, Nat.add_sub_cancel]
      rw [ih]
      split_ifs <;> simp

theorem backfillFrom_getD_isSome (width : ℕ) (n : ℕ) :
    ∀ (x : ℕ) (arr : List (Option ℝ)) (j : ℕ),
      ((arr.getD j none).isSome) →
      (backfillFrom width x n arr).getD j none = arr.getD j none := by
  induction n with
  | zero => intro x arr j _; rfl
  | succ n ih =>
      intro x arr j hj
      simp only [backfillFrom, Nat.add_sub_cancel]
      by_cases hx : arr.getD x none = none
      · rw [if_pos hx]
        have hne : x ≠ j := by
          intro he
          subst he
          rw [hx] at hj
          simp at hj
        rw [ih _ _ j (by rw [getD_set_ne arr x j _ none hne]; exact hj),
          getD_set_ne arr x j _ none hne]
      · rw [if_neg hx]
        exact ih _ _ j hj

theorem backfillFrom_getD_lt (width : ℕ) (n : ℕ) :
    ∀ (x : ℕ) (arr : List (Option ℝ)) (j : ℕ), j < x →
      (backfillFrom width x n arr).getD j none = arr.getD j none := by
  induction n with
  | zero => intro x arr j _; rfl
  | succ n ih =>
      intro x arr j hj
      simp only [backfillFrom, Nat.add_sub_cancel]
      by_cases hx : arr.getD x none = none
      · rw [if_pos hx, ih (x + 1) _ j (by omega), getD_set_ne arr x j _ none (by omega)]
      · rw [if_neg hx]
        exact ih (x + 1) arr j (by omega)

theorem set_getD_other {β : Type} (l : List β) (x k : ℕ) (d : β) :
    (l.set x (l.getD k d)).getD k d = l.getD k d := by
  by_cases h : x = k
  · subst h
    exact getD_set_refl l x x d
  · rw [getD_set_ne l x k _ d h]

theorem backfillFrom_getD_none (width : ℕ) (n : ℕ) :
    ∀ (x : ℕ) (arr : List (Option ℝ)) (j : ℕ),
      x ≤ j → j < x + n → j < arr.length → arr.getD j none = none →
      (backfillFrom width x n arr).getD j none = arr.getD (width - 1) none := by
  induction n with
  | zero => intro x arr j h1 h2 _ _; omega
  | succ n ih =>
      intro x arr j h1 h2 hlen hnone
      simp only [backfillFrom, Nat.add_sub_cancel]
      by_cases hxj : x = j
      · subst hxj
        rw [if_pos hnone,
          backfillFrom_getD_lt width n (x + 1) _ x (by omega),
          getD_set_self, if_pos hlen]
      · have hx1 : x + 1 ≤ j := by omega
        by_cases hx : arr.getD x none = none
        · rw [if_pos hx,
            ih (x + 1) _ j hx1 (by omega) (by rw [List.length_set]; exact hlen)
              (by rw [getD_set_ne arr x j _ none hxj]; exact hnone)]
          exact set_getD_other arr x (width - 1) none
        · rw [if_neg hx]
          exact ih (x + 1) arr j hx1 (by omega) hlen hnone

theorem mkControlPoints_length (width : ℕ) (ys : List ℝ) :
    (mkControlPoints width ys).length = ys.length := by
  simp [mkControlPoints]

theorem mkControlPoints_getElem (width : ℕ) (ys : List ℝ) (i : ℕ) (hi : i < ys.length) :
    (mkControlPoints width ys)[i]? = some ⟨cpX width ys.length i, ys.getD i 0⟩ := by
  simp [mkControlPoints, List.getElem?_range, hi]

theorem cpX_last (width n : ℕ) : cpX width n (n - 1) = (width : ℝ) := by
  rw [cpX, if_pos rfl]

theorem cpX_zero (width n : ℕ) (hn : 2 ≤ n) : cpX width n 0 = 0 := by
  rw [cpX, if_neg (by omega)]
  simp

theorem cpX_le_width (width n i : ℕ) (hn : 2 ≤ n) (hi : i ≤ n - 1) :
    cpX width n i ≤ (width : ℝ) := by
  rw [cpX]
  split_ifs with h
  · exact le_refl _
  · have hn1 : (1 : ℝ) ≤ (n : ℝ) - 1 := by
      have : (2 : ℝ) ≤ (n : ℝ) := by exact_mod_cast hn
      linarith
    have hiR : (i : ℝ) ≤ (n : ℝ) - 1 := by
      have h2 : (i : ℝ) ≤ ((n - 1 : ℕ) : ℝ) := by exact_mod_cast hi
      rw [Nat.cast_sub (by omega)] at h2
      simpa using h2
    calc (i : ℝ) * ((width : ℝ) / ((n : ℝ) - 1))
        ≤ ((n : ℝ) - 1) * ((width : ℝ) / ((n : ℝ) - 1)) :=
          mul_le_mul_of_nonneg_right hiR
            (div_nonneg (Nat.cast_nonneg _) (by linarith))
      _ = (width : ℝ) := by field_simp

theorem cpX_mono (width n i : ℕ) (hn : 2 ≤ n) (hi : i + 1 ≤ n - 1) :
    cpX width n i ≤ cpX width n (i + 1) := by
  by_cases h : i + 1 = n - 1
  · rw [show cpX width n (i + 1) = (width : ℝ) by rw [cpX, if_pos h]]
    exact cpX_le_width width n i hn (by omega)
  · rw [cpX, cpX, if_neg (by omega), if_neg (by omega)]
    apply mul_le_mul_of_nonneg_right
    · exact_mod_cast Nat.le_succ i
    · apply div_nonneg (Nat.cast_nonneg _)
      have : (2 : ℝ) ≤ (n : ℝ) := by exact_mod_cast hn
      linarith

theorem cpX_floor_mono (width n : ℕ) (hn : 2 ≤ n) (a b : ℕ) (hab : a ≤ b) (hb : b ≤ n - 1) :
    ⌊cpX width n a⌋ ≤ ⌊cpX width n b⌋ := by
  induction b with
  | zero =>
      have ha : a = 0 := by omega
      subst ha
      exact le_refl _
  | succ b ih =>
      rcases Nat.lt_or_ge a (b + 1) with h1 | h2
      · calc ⌊cpX width n a⌋ ≤ ⌊cpX width n b⌋ := ih (by omega) (by omega)
          _ ≤ ⌊cpX width n (b + 1)⌋ :=
            Int.floor_le_floor (cpX_mono width n b hn (by omega))
      · have ha : a = b + 1 := by omega
        subst ha
        exact le_refl _

theorem exists_segment (f : ℕ → ℤ) (m : ℕ) (hmono : ∀ i, i + 1 ≤ m → f i ≤ f (i + 1))
    (j : ℤ) (h0 : f 0 ≤ j) (hm : j < f m) :
    ∃ i, i + 1 ≤ m ∧ f i ≤ j ∧ j < f (i + 1) := by
  induction m with
  | zero => omega
  | succ m ih =>
      by_cases h : j < f m
      · obtain ⟨i, hi, h1, h2⟩ := ih (fun i hi => hmono i (by omega)) h
        exact ⟨i, by omega, h1, h2⟩
      · exact ⟨m, by omega, by omega, hm⟩

/-! ### Terrain generation theorems -/

/-- Claim C4: for every requested width and every outcome of the random
draws (the number of control points, between 2 and 21 in the source, and
their elevations, given here as the list ys with at least two entries),
the generated terrain has length exactly width and every index below
width holds a defined value after interpolation and back-filling. -/
theorem generateTerrain_total (width : ℕ) (ys : List ℝ) (hys : 2 ≤ ys.length) :
    (generateTerrain width ys).length = width ∧
    ∀ x, x < width → ((generateTerrain width ys).getD x none).isSome := by
  refine ⟨?_, ?_⟩
  · rw [generateTerrain, backfillFrom_length, fillAll_length, List.length_replicate]
  · intro x hx
    obtain ⟨i, hi1, hi2, hi3⟩ :=
      exists_segment (fun i => ⌊cpX width ys.length i⌋) (ys.length - 1)
        (fun i hi => Int.floor_le_floor (cpX_mono width ys.length i hys hi))
        (x : ℤ)
        (by show ⌊cpX width ys.length 0⌋ ≤ (x : ℤ)
            rw [cpX_zero width ys.length hys]
            simp)
        (by show (x : ℤ) < ⌊cpX width ys.length (ys.length - 1)⌋
            rw [cpX_last width ys.length, Int.floor_natCast]
            exact_mod_cast hx)
    have h0 := mkControlPoints_getElem width ys i (by omega)
    have h1 := mkControlPoints_getElem width ys (i + 1) (by omega)
    have hmono : ∀ k q, i + 1 ≤ k →
        (mkControlPoints width ys)[k]? = some q →
        ⌊(Point.mk (cpX width ys.length (i + 1)) (ys.getD (i + 1) 0)).x⌋ ≤ ⌊q.x⌋ := by
      intro k q hk hq
      have hkn : k < ys.length := by
        by_contra hc
        rw [List.getElem?_eq_none (by rw [mkControlPoints_length]; omega)] at hq
        exact Option.noConfusion hq
      rw [mkControlPoints_getElem width ys k hkn] at hq
      rw [← Option.some.inj hq]
      exact cpX_floor_mono width ys.length hys (i + 1) k hk (by omega)
    have hfill := fillAll_getD_pair width x (mkControlPoints width ys)
        (List.replicate width none) i _ _ h0 h1 hmono hi2
        (lt_min hi3 (by exact_mod_cast hx))
        (by rw [List.length_replicate]; exact hx)
    rw [generateTerrain,
      backfillFrom_getD_isSome width width 0 _ x (by rw [hfill]; rfl), hfill]
    rfl

/-- Witness for claim C4: generation at width 4 with two control
elevations yields a heightmap of length 4. -/
theorem generateTerrain_total_witness :
    (generateTerrain 4 [(100 : ℝ), 200]).length = 4 :=
  (generateTerrain_total 4 [100, 200] (by norm_num)).1

/-- Claim C5: for every pair of consecutive control points p0, p1 and
every integer x with floor p0.x <= x < floor p1.x and x < width, the
generated elevation at x is p0.y * (1 - t2) + p1.y * t2 where
t = (x - p0.x) / (p1.x - p0.x) and t2 = (1 - cos (t pi)) / 2; the last
control point has x forced to exactly width; and an index still
undefined after the segment fills receives the current value at index
width - 1. -/
theorem generateTerrain_interp (width : ℕ) (ys : List ℝ) :
    (∀ (i x : ℕ) (p0 p1 : Point ℝ),
      (mkControlPoints width ys)[i]? = some p0 →
      (mkControlPoints width ys)[i + 1]? = some p1 →
      ⌊p0.x⌋ ≤ (x : ℤ) → (x : ℤ) < ⌊p1.x⌋ → x < width →
      (generateTerrain width ys).getD x none =
        some (p0.y * (1 - (1 - Real.cos (((x : ℝ) - p0.x) / (p1.x - p0.x) * Real.pi)) / 2) +
          p1.y * ((1 - Real.cos (((x : ℝ) - p0.x) / (p1.x - p0.x) * Real.pi)) / 2)))
    ∧ (∀ q : Point ℝ, (mkControlPoints width ys)[ys.length - 1]? = some q →
        q.x = (width : ℝ))
    ∧ (∀ x : ℕ, x < width →
        (fillAll width (mkControlPoints width ys) (List.replicate width none)).getD x none =
          none →
        (generateTerrain width ys).getD x none =
          (fillAll width (mkControlPoints width ys) (List.replicate width none)).getD
            (width - 1) none) := by
  refine ⟨?_, ?_, ?_⟩
  · intro i x p0 p1 h0 h1 hlo hhi hxw
    have hi1 : i + 1 < ys.length := by
      by_contra hc
      rw [List.getElem?_eq_none (by rw [mkControlPoints_length]; omega)] at h1
      exact Option.noConfusion h1
    have hys : 2 ≤ ys.length := by omega
    have hp1 : Point.mk (cpX width ys.length (i + 1)) (ys.getD (i + 1) 0) = p1 := by
      have hg := mkControlPoints_getElem width ys (i + 1) hi1
      rw [hg] at h1
      exact Option.some.inj h1
    have hmono : ∀ k q, i + 1 ≤ k → (mkControlPoints width ys)[k]? = some q →
        ⌊p1.x⌋ ≤ ⌊q.x⌋ := by
      intro k q hk hq
      have hkn : k < ys.length := by
        by_contra hc
        rw [List.getElem?_eq_none (by rw [mkControlPoints_length]; omega)] at hq
        exact Option.noConfusion hq
      rw [mkControlPoints_getElem width ys k hkn] at hq
      rw [← Option.some.inj hq, ← hp1]
      exact cpX_floor_mono width ys.length hys (i + 1) k hk (by omega)
    have hfill := fillAll_getD_pair width x (mkControlPoints width ys)
        (List.replicate width none) i p0 p1 h0 h1 hmono hlo
        (lt_min hhi (by exact_mod_cast hxw))
        (by rw [List.length_replicate]; exact hxw)
    rw [generateTerrain,
      backfillFrom_getD_isSome width width 0 _ x (by rw [hfill]; rfl), hfill]
    congr 1
  · intro q hq
    rcases Nat.eq_zero_or_pos ys.length with hz | hpos
    · rw [List.length_eq_zero] at hz
      subst hz
      simp [mkControlPoints] at hq
    · rw [mkControlPoints_getElem width ys (ys.length - 1) (by omega)] at hq
      rw [← Option.some.inj hq]
      exact cpX_last width ys.length
  · intro x hxw hnone
    rw [generateTerrain]
    exact backfillFrom_getD_none width width 0 _ x (Nat.zero_le x) (by omega)
      (by rw [fillAll_length, List.length_replicate]; exact hxw) hnone

/-- Witness for claim C5: at width 4 with control elevations 100 and
200, index 1 of the generated terrain carries the cosine-blended value
of the two control points. -/
theorem generateTerrain_interp_witness :
    (generateTerrain 4 [(100 : ℝ), 200]).getD 1 none =
      some ((100 : ℝ) *
          (1 - (1 - Real.cos ((((1 : ℕ) : ℝ) - cpX 4 2 0) / (cpX 4 2 1 - cpX 4 2 0) *
            Real.pi)) / 2) +
        200 * ((1 - Real.cos ((((1 : ℕ) : ℝ) - cpX 4 2 0) / (cpX 4 2 1 - cpX 4 2 0) *
          Real.pi)) / 2)) :=
  (generateTerrain_interp 4 [100, 200]).1 0 1
    ⟨cpX 4 2 0, List.getD [(100 : ℝ), 200] 0 0⟩
    ⟨cpX 4 2 1, List.getD [(100 : ℝ), 200] 1 0⟩
    (mkControlPoints_getElem 4 [100, 200] 0 (by norm_num))
    (mkControlPoints_getElem 4 [100, 200] 1 (by norm_num))
    (by norm_num [cpX]) (by norm_num [cpX]) (by norm_num)

/-! ### Trajectory theorems -/

theorem tickTime_eq (n : ℕ) : tickTime n = n * DT := by
  induction n with
  | zero => simp [tickTime]
  | succ n ih =>
      rw [tickTime, ih]
      push_cast
      ring

/-- Claim C1: the projectile position at every simulation tick is the
closed form evaluated directly at the elapsed time t = n * DT - the
loop only accumulates t, it performs no incremental velocity
integration - x(t) = x0 + v cos(theta) t and
y(t) = y0 - v sin(theta) t + (1/2) g t^2 with g the fixed gravity
constant; and theta is the entered angle for player 0 and 180 degrees
minus the angle exactly for the player whose firing station lies past
the playfield midpoint. -/
theorem missile_closed_form (startPos : Point ℝ) (player : ℕ) (rawAngle v w : ℝ)
    (left right : Station ℝ)
    (hp : player = 0 ∨ player = 1)
    (hside : ((if player = 0 then left else right).x > w / 2) ↔ player = 1) :
    (∀ n : ℕ,
      (simTickPos startPos player rawAngle v n).x =
        startPos.x + v * Real.cos (simAngleRad player rawAngle) * (n * DT) ∧
      (simTickPos startPos player rawAngle v n).y =
        startPos.y - v * Real.sin (simAngleRad player rawAngle) * (n * DT) +
          (1 / 2) * GRAVITY * ((n * DT) * (n * DT)))
    ∧ simAngleRad player rawAngle =
        (if (if player = 0 then left else right).x > w / 2
          then (180 - rawAngle) * Real.pi / 180
          else rawAngle * Real.pi / 180) := by
  constructor
  · intro n
    rw [simTickPos, missileAt, tickTime_eq]
    exact ⟨rfl, rfl⟩
  · rcases hp with h | h
    · subst h
      have hneg : ¬((if (0 : ℕ) = 0 then left else right).x > w / 2) :=
        fun hh => absurd (hside.mp hh) (by omega)
      rw [if_neg hneg]
      rfl
    · subst h
      have hpos : (if (1 : ℕ) = 0 then left else right).x > w / 2 := hside.mpr rfl
      rw [if_pos hpos]
      rfl

/-- Witness for claim C1: the x-coordinate at tick 3 of a shot by
player 0 equals the closed form at t = 3 * DT. -/
theorem missile_closed_form_witness :
    (simTickPos ⟨0, 0⟩ 0 45 250 3).x =
      0 + 250 * Real.cos (simAngleRad 0 45) * ((3 : ℕ) * DT) :=
  ((missile_closed_form ⟨0, 0⟩ 0 45 250 4 ⟨0, 0, 30, 15⟩ ⟨100, 0, 30, 15⟩
      (Or.inl rfl) (by norm_num)).1 3).1

/-! ### Explosion outcome theorems -/

theorem explosionStep_terrain (st : MatchState ℝ) (pos : Point ℝ)
    (enemy : Station ℝ) (b : Bool) :
    (explosionStep st pos enemy b).terrain = crater pos EXPLOSION_RADIUS st.terrain := by
  rw [explosionStep]
  split_ifs <;> rfl

/-- Claim C6: after an explosion the match ends with the current player
as winner exactly when the hit was direct or the Euclidean distance from
the explosion position to the geometric center of the opposing station
is at most the explosion radius; otherwise the turn passes to the other
player.  The same EXPLOSION_RADIUS constant is the threshold in both
cases. -/
theorem explosion_win_iff (st : MatchState ℝ) (pos : Point ℝ) (enemy : Station ℝ)
    (directHit : Bool) (hgo : st.gameOver = false) :
    (((explosionStep st pos enemy directHit).gameOver = true ∧
        (explosionStep st pos enemy directHit).winner = some st.currentPlayer)
      ↔ (directHit = true ∨
          Real.sqrt ((pos.x - (stationCenter enemy).x) * (pos.x - (stationCenter enemy).x) +
              (pos.y - (stationCenter enemy).y) * (pos.y - (stationCenter enemy).y)) ≤
            EXPLOSION_RADIUS))
    ∧ (¬(directHit = true ∨
          Real.sqrt ((pos.x - (stationCenter enemy).x) * (pos.x - (stationCenter enemy).x) +
              (pos.y - (stationCenter enemy).y) * (pos.y - (stationCenter enemy).y)) ≤
            EXPLOSION_RADIUS) →
        (explosionStep st pos enemy directHit).currentPlayer =
          (if st.currentPlayer = 0 then 1 else 0) ∧
        (explosionStep st pos enemy directHit).gameOver = false ∧
        (explosionStep st pos enemy directHit).inputStep = InputStep.angle) := by
  by_cases hc : directHit = true ∨
      Real.sqrt ((pos.x - (stationCenter enemy).x) * (pos.x - (stationCenter enemy).x) +
          (pos.y - (stationCenter enemy).y) * (pos.y - (stationCenter enemy).y)) ≤
        EXPLOSION_RADIUS
  · refine ⟨⟨fun _ => hc, fun _ => ?_⟩, fun hn => absurd hc hn⟩
    rw [explosionStep, if_pos hc]
    exact ⟨rfl, rfl⟩
  · constructor
    · constructor
      · rintro ⟨h1, -⟩
        rw [explosionStep, if_neg hc] at h1
        have h2 : st.gameOver = true := h1
        rw [hgo] at h2
        exact Bool.noConfusion h2
      · intro h
        exact absurd h hc
    · intro _
      rw [explosionStep, if_neg hc]
      exact ⟨rfl, hgo, rfl⟩

/-- Witness for claim C6: a direct hit by player 0 ends the game with
player 0 as winner. -/
theorem explosion_win_iff_witness :
    (explosionStep sampleState ⟨0, 0⟩ ⟨0, 0, 30, 15⟩ true).gameOver = true ∧
    (explosionStep sampleState ⟨0, 0⟩ ⟨0, 0, 30, 15⟩ true).winner =
      some sampleState.currentPlayer :=
  (explosion_win_iff sampleState ⟨0, 0⟩ ⟨0, 0, 30, 15⟩ true rfl).1.2 (Or.inl rfl)

/-- Counterexample to claim C7: a flight that ends out of bounds leaves
the terrain completely untouched - the crater is never applied on that
path, even though applying it at the impact point would have changed the
heightmap - and only switches the turn. -/
theorem flight_end_oob_no_crater :
    (resolveFlightEnd sampleState FlightEvent.outOfBounds ⟨0, 300⟩ ⟨100, 0, 30, 15⟩).terrain =
      sampleState.terrain
    ∧ crater (⟨0, 300⟩ : Point ℝ) EXPLOSION_RADIUS sampleState.terrain ≠ sampleState.terrain
    ∧ (resolveFlightEnd sampleState FlightEvent.outOfBounds ⟨0, 300⟩ ⟨100, 0, 30, 15⟩).currentPlayer = 1 := by
  refine ⟨rfl, ?_, rfl⟩
  have h0 := crater_getD_inside [(300 : ℝ)] ⟨0, 300⟩ EXPLOSION_RADIUS 0
    (by norm_num) (by norm_num [EXPLOSION_RADIUS])
  intro hcon
  rw [show sampleState.terrain = [(300 : ℝ)] from rfl] at hcon
  rw [hcon] at h0
  norm_num [EXPLOSION_RADIUS, List.getD] at h0

/-- Claim C7 amended: on a non-lethal terrain hit the crater is applied
to the heightmap and the turn switches to the other player (and on any
explosion, terrain hit or direct hit, the terrain is cratered); on an
out-of-bounds flight the turn switches with the terrain unchanged. -/
theorem flight_end_effects (st : MatchState ℝ) (pos : Point ℝ) (enemy : Station ℝ) :
    ((resolveFlightEnd st FlightEvent.outOfBounds pos enemy).terrain = st.terrain ∧
      (resolveFlightEnd st FlightEvent.outOfBounds pos enemy).currentPlayer =
        (if st.currentPlayer = 0 then 1 else 0))
    ∧ (¬(Real.sqrt ((pos.x - (stationCenter enemy).x) * (pos.x - (stationCenter enemy).x) +
            (pos.y - (stationCenter enemy).y) * (pos.y - (stationCenter enemy).y)) ≤
          EXPLOSION_RADIUS) →
        (resolveFlightEnd st FlightEvent.terrainHit pos enemy).terrain =
          crater pos EXPLOSION_RADIUS st.terrain ∧
        (resolveFlightEnd st FlightEvent.terrainHit pos enemy).currentPlayer =
          (if st.currentPlayer = 0 then 1 else 0))
    ∧ (resolveFlightEnd st FlightEvent.terrainHit pos enemy).terrain =
        crater pos EXPLOSION_RADIUS st.terrain
    ∧ (resolveFlightEnd st FlightEvent.directHit pos enemy).terrain =
        crater pos EXPLOSION_RADIUS st.terrain := by
  refine ⟨⟨rfl, rfl⟩, ?_, ?_, ?_⟩
  · intro h
    have hc : ¬((false : Bool) = true ∨
        Real.sqrt ((pos.x - (stationCenter enemy).x) * (pos.x - (stationCenter enemy).x) +
            (pos.y - (stationCenter enemy).y) * (pos.y - (stationCenter enemy).y)) ≤
          EXPLOSION_RADIUS) := by
      simp [h]
    constructor
    · exact explosionStep_terrain st pos enemy false
    · show (explosionStep st pos enemy false).currentPlayer = _
      rw [explosionStep, if_neg hc]
      rfl
  · exact explosionStep_terrain st pos enemy false
  · exact explosionStep_terrain st pos enemy true

/-- Witness for the amended claim C7: a terrain hit at distance 100 from
the enemy center craters the heightmap and passes the turn. -/
theorem flight_end_effects_witness :
    (resolveFlightEnd sampleState FlightEvent.terrainHit ⟨100, 0⟩ ⟨0, 0, 0, 0⟩).terrain =
      crater ⟨100, 0⟩ EXPLOSION_RADIUS sampleState.terrain ∧
    (resolveFlightEnd sampleState FlightEvent.terrainHit ⟨100, 0⟩ ⟨0, 0, 0, 0⟩).currentPlayer =
      (if sampleState.currentPlayer = 0 then 1 else 0) :=
  (flight_end_effects sampleState ⟨100, 0⟩ ⟨0, 0, 0, 0⟩).2.1 (by
    have hsq : ((100 : ℝ) - ((0 : ℝ) + 0 / 2)) * ((100 : ℝ) - ((0 : ℝ) + 0 / 2)) +
        ((0 : ℝ) - ((0 : ℝ) + 0 / 2)) * ((0 : ℝ) - ((0 : ℝ) + 0 / 2)) = 100 ^ 2 := by
      norm_num
    show ¬(Real.sqrt _ ≤ EXPLOSION_RADIUS)
    rw [show (stationCenter (⟨0, 0, 0, 0⟩ : Station ℝ)).x = (0 : ℝ) + 0 / 2 from rfl,
      show (stationCenter (⟨0, 0, 0, 0⟩ : Station ℝ)).y = (0 : ℝ) + 0 / 2 from rfl,
      show (Point.mk (100 : ℝ) 0).x = (100 : ℝ) from rfl,
      show (Point.mk (100 : ℝ) 0).y = (0 : ℝ) from rfl, hsq,
      Real.sqrt_sq (by norm_num : (0 : ℝ) ≤ 100), EXPLOSION_RADIUS]
    norm_num)

end ScorchedEarth
